import Mathlib

/-!
Verification of the SafeLaunchAI retrieval engine.

This file is a shallow embedding, in Lean 4, of the retrieval core of the
repository: the noise/quality filter, the context-aware chunkers, the
JSON-backed TF-IDF `VectorStore` and its `search_legal_context` entrypoint
(`core/legal_rag.py`), the hybrid RRF ranker (`core/langchain_rag.py`), and the
numpy-backed store and entrypoint
(`startup-legal-helper-main/core/legal_rag_advanced.py`).

Modelling conventions, fixed once for the whole file:

* Python strings are `List Char` where character-level operations (lengths,
  slicing, trimming) matter, and `String` where only equality and prefixes
  matter.  Python `str.strip` is `pyStrip`, Python slices are `drop`/`take`.
* Python dicts are insertion-ordered association lists; `dict[k] = v` is
  `dictSet` (replace in place, else append), `dict.get` is `lookupKV`.
* Scores are exact rationals `ℚ`.  Python `round(x, 4)` is `round4`
  (round-half-up at the fourth decimal; the Python/binary-float rounding mode
  differences at exact half-way points do not arise at any input used here).
* `sorted(..., reverse=True)` / `list.sort(..., reverse=True)` are the stable
  descending sort `sortDesc` (Mathlib's stable `insertionSort`).  `np.argsort`
  is modelled by the same descending order; the facts proved about it hold for
  every valid descending order, so the (unspecified) numpy tie-break is not
  relied upon.
* md5-based identifiers (`hashlib.md5(s).hexdigest()`) are modelled by their
  (injective, collision-free) preimage `s`.
* Values computed by external collaborators (sklearn TF-IDF cosine
  similarities, FAISS semantic hits, FTS5 keyword hits, sentence-transformer
  embeddings) are inputs of the embedded functions; a vectorizer `ValueError`
  (degenerate vocabulary) is the `none` case of an `Option` input, exactly
  where the source catches it.
-/

set_option allowUnsafeReducibility true
attribute [semireducible] Rat.mul Rat.add Rat.sub Rat.inv Rat.div

namespace SafeLaunch

/-! ## Generic helpers: Python dicts, rounding, sorting, Python string utilities -/

/-- A metadata value: the source stores strings and the integer `chunk_index`. -/
inductive MVal where
  | str : String → MVal
  | nat : Nat → MVal
deriving DecidableEq

/-- Model of `str(v)` on a metadata value, as used in f-strings. -/
def mvalStr : MVal → String
  | .str s => s
  | .nat n => toString n

/-- Python `d.get(k)`: value of the first entry with key `k`. -/
def lookupKV {α : Type} (k : String) : List (String × α) → Option α
  | [] => none
  | (k₂, v) :: rest => if k₂ = k then some v else lookupKV k rest

/-- Python `d[k] = v` on an insertion-ordered dict: replace the first entry
with key `k` in place, otherwise append a new entry. -/
def dictSet {α : Type} : List (String × α) → String → α → List (String × α)
  | [], k, v => [(k, v)]
  | (k₂, v₂) :: rest, k, v =>
    if k₂ = k then (k, v) :: rest else (k₂, v₂) :: dictSet rest k v

/-- Python `round(q, 4)`. -/
def round4 (q : ℚ) : ℚ := ((round (q * 10000) : ℤ) : ℚ) / 10000

/-- Stable descending sort by a rational key: the model of Python
`sorted(..., key=key, reverse=True)` and `list.sort(key=key, reverse=True)`
(both stable), and of the descending order produced by `np.argsort(...)[::-1]`. -/
def sortDesc {α : Type} (key : α → ℚ) (l : List α) : List α :=
  List.insertionSort (fun a b => key b ≤ key a) l

/-- Python `range(0, stop, step)` for a positive `step` (the source guarantees
`chunk_size - overlap > 0`; a zero step, on which Python raises, is mapped to
the empty range to keep the function total). -/
def pyRangeUp (stop step : Nat) : List Nat :=
  if step = 0 then [] else (List.range ((stop + step - 1) / step)).map (· * step)

/-- Python `str.strip()`: remove leading and trailing whitespace. -/
def pyStrip (l : List Char) : List Char :=
  ((l.dropWhile Char.isWhitespace).reverse.dropWhile Char.isWhitespace).reverse

/-- Does `pat` occur at the head of `l`? -/
def startsWithChars : List Char → List Char → Bool
  | [], _ => true
  | _ :: _, [] => false
  | p :: ps, c :: cs => p = c && startsWithChars ps cs

/-- Python `pat in text` (substring containment). -/
def containsSub (pat : List Char) (l : List Char) : Bool :=
  l.tails.any (fun t => startsWithChars pat t)

/-! ## The noise filter and document validator of `core/legal_rag.py` -/

/-- A regex word character (`\w`): ASCII alphanumerics, underscore, and
non-ASCII characters (the corpus's Korean text is all word characters; this
overapproximates `\w` only on non-ASCII punctuation, which no claim touches). -/
def isWordChar (c : Char) : Bool :=
  c.isAlphanum || c = '_' || 128 ≤ c.toNat

/-- The alternatives of `NOISE_PATTERNS`, in source order; the flag marks the
five alternatives that end in a `\b` word boundary. -/
def noisePatterns : List (List Char × Bool) :=
  [("/drf/".toList, false), (".css".toList, true), (".js".toList, true),
   (".jpg".toList, true), (".png".toList, true), (".gif".toList, true),
   ("font-family:".toList, false), ("font-size:".toList, false),
   ("text-align:".toList, false), ("margin-top:".toList, false),
   ("padding:".toList, false), ("background-color:".toList, false),
   ("border:".toList, false), ("<script".toList, false), ("<style".toList, false),
   ("jquery".toList, false), ("ext-all".toList, false),
   ("resources/css".toList, false)]

/-- Model of `\b` after a literal ending in a word character: the next character must
be absent or a non-word character. -/
def boundaryOk : List Char → Bool
  | [] => true
  | c :: _ => !isWordChar c

/-- Try every alternative of `NOISE_PATTERNS` at the head of `l` (already
lowercased); return the length of the first match. -/
def tryNoiseAt (l : List Char) : Option Nat :=
  noisePatterns.findSome? (fun pb =>
    if startsWithChars pb.1 l && (!pb.2 || boundaryOk (l.drop pb.1.length)) then
      some pb.1.length
    else none)

/-- Count the leftmost non-overlapping matches of `NOISE_PATTERNS` in an
already-lowercased text.  The fuel is instantiated with the text length; each
step consumes at least one character, so it never runs out. -/
def noiseCountGo : Nat → List Char → Nat
  | _, [] => 0
  | 0, _ => 0
  | fuel + 1, c :: rest =>
    match tryNoiseAt (c :: rest) with
    | some n => 1 + noiseCountGo fuel (rest.drop (n - 1))
    | none => noiseCountGo fuel rest

/-- Model of `len(NOISE_PATTERNS.findall(text))`. -/
def noiseMatchCount (text : List Char) : Nat :=
  noiseCountGo text.length (text.map Char.toLower)

/-- Model of `text.count("/") / max(len(text), 1)`, as an exact rational. -/
def slash_ratio (text : List Char) : ℚ :=
  ((text.countP (fun c => c = '/') : ℚ)) / ((max text.length 1 : Nat) : ℚ)

/-- Model of `_is_noise_text` (`core/legal_rag.py`): short/empty text, ≥ 3 noise-pattern
matches, or a path-separator ratio above 0.05. -/
def is_noise_text (text : List Char) : Bool :=
  if text = [] ∨ (pyStrip text).length < 10 then true
  else if 3 ≤ noiseMatchCount text then true
  else if (1 : ℚ)/20 < slash_ratio text then true
  else false

/-- The type-specific legal keyword sets (`LEGAL_KEYWORDS_*`). -/
def legal_keywords_law : List String := ["제", "조", "항", "호", "법", "규정", "시행"]

def legal_keywords_precedent : List String :=
  ["판시사항", "판결요지", "판례", "원고", "피고", "법원", "선고",
   "판결", "사건", "청구", "항소", "상고", "위반", "침해"]

def legal_keywords_policy : List String :=
  ["앱", "정책", "가이드", "심사", "콘텐츠", "데이터", "사용자"]

/-- Model of `min_lengths.get(source_type, 50)`. -/
def minLenFor (source_type : String) : Nat :=
  if source_type = "law" then 100
  else if source_type = "precedent" then 80
  else if source_type = "store_policy" then 50
  else 50

/-- Model of `keyword_map.get(source_type, LEGAL_KEYWORDS_LAW)`. -/
def keywordsFor (source_type : String) : List String :=
  if source_type = "law" then legal_keywords_law
  else if source_type = "precedent" then legal_keywords_precedent
  else if source_type = "store_policy" then legal_keywords_policy
  else legal_keywords_law

/-- Model of `validate_legal_document` (`core/legal_rag.py`): four short-circuit
rejections — blank text, noise, type-specific minimum length, fewer than two
type-specific keywords. -/
def validate_legal_document (text : List Char) (source_type : String) : Bool :=
  if pyStrip text = [] then false
  else if is_noise_text text then false
  else if (pyStrip text).length < minLenFor source_type then false
  else if (keywordsFor source_type).countP
      (fun kw => containsSub kw.toList text) < 2 then false
  else true

/-! ## The HTML cleaner `_clean_html` of `core/legal_rag.py` -/

/-- Remove every match of `<OPEN[^>]*>.*?</CLOSE>` (DOTALL, IGNORECASE): used
with `script` and `style`.  At a position starting with the opening literal,
consume non-`>` characters, require `>`, then cut minimally to the first
closing literal; if any part is missing the position does not match. -/
def dropBlockAt (openPat closePat : List Char) (l : List Char) : Option (List Char) :=
  if startsWithChars openPat (l.map Char.toLower) then
    let afterOpen := l.drop openPat.length
    let afterAttrs := afterOpen.dropWhile (fun c => c ≠ '>')
    match afterAttrs with
    | '>' :: body =>
      let rec findClose (fuel : Nat) (m : List Char) : Option (List Char) :=
        match fuel, m with
        | _, [] => none
        | 0, _ => none
        | fuel + 1, c :: rest =>
          if startsWithChars closePat ((c :: rest).map Char.toLower) then
            some ((c :: rest).drop closePat.length)
          else findClose fuel rest
      findClose body.length body
    | _ => none
  else none

/-- One `re.sub(r"<open[^>]*>.*?</close>", "", text)` pass. -/
def removeBlocks (openPat closePat : List Char) : Nat → List Char → List Char
  | 0, l => l
  | _, [] => []
  | fuel + 1, c :: rest =>
    match dropBlockAt openPat closePat (c :: rest) with
    | some rest₂ => removeBlocks openPat closePat fuel rest₂
    | none => c :: removeBlocks openPat closePat fuel rest

/-- Model of `re.sub(r"<[^>]+>", "", text)`: drop tags with a non-empty body. -/
def removeTags : Nat → List Char → List Char
  | 0, l => l
  | _, [] => []
  | fuel + 1, c :: rest =>
    if c = '<' then
      let body := rest.takeWhile (fun d => d ≠ '>')
      match body, rest.drop body.length with
      | _ :: _, '>' :: rest₂ => removeTags fuel rest₂
      | _, _ => c :: removeTags fuel rest
    else c :: removeTags fuel rest

/-- Model of `re.sub(r"&[a-zA-Z]+;", " ", text)`: entities become single spaces. -/
def removeEntities : Nat → List Char → List Char
  | 0, l => l
  | _, [] => []
  | fuel + 1, c :: rest =>
    if c = '&' then
      let body := rest.takeWhile (fun d => d.isAlpha)
      match body, rest.drop body.length with
      | _ :: _, ';' :: rest₂ => ' ' :: removeEntities fuel rest₂
      | _, _ => c :: removeEntities fuel rest
    else c :: removeEntities fuel rest

/-- Model of `re.sub(r"\s+", " ", text)`: collapse whitespace runs to single spaces
(fuel-driven like the other scanners). -/
def collapseWsGo : Nat → List Char → List Char
  | _, [] => []
  | 0, l => l
  | fuel + 1, c :: rest =>
    if c.isWhitespace then
      ' ' :: collapseWsGo fuel (rest.dropWhile Char.isWhitespace)
    else c :: collapseWsGo fuel rest

/-- Model of `_clean_html` (`core/legal_rag.py`). -/
def _clean_html (text : List Char) : List Char :=
  let t₁ := removeBlocks "<script".toList "</script>".toList text.length text
  let t₂ := removeBlocks "<style".toList "</style>".toList t₁.length t₁
  let t₃ := removeTags t₂.length t₂
  let t₄ := removeEntities t₃.length t₃
  pyStrip (collapseWsGo t₄.length t₄)

/-! ## The chunkers of `core/legal_rag.py` -/

/-- Model of `_generate_chunk_id`: md5 of `f"{source_id}_chunk_{chunk_index}"`, modelled
by the (injective) preimage string. -/
def _generate_chunk_id (source_id : String) (chunk_index : Nat) : String :=
  source_id ++ "_chunk_" ++ toString chunk_index

/-- A produced chunk: `{"id": ..., "text": ..., "metadata": ...}`. -/
structure Chunk where
  id : String
  text : List Char
  metadata : List (String × MVal)
deriving DecidableEq

/-- Model of `metadata.get("source_id", "unknown")`. -/
def metaSourceId (metadata : List (String × MVal)) : String :=
  match lookupKV "source_id" metadata with
  | some v => mvalStr v
  | none => "unknown"

/-- Model of `_append_chunk` (`core/legal_rag.py`): append a chunk whose index is the
current length of the list, with `{**metadata, "chunk_index": idx}`. -/
def _append_chunk (chunks : List Chunk) (text : List Char)
    (metadata : List (String × MVal)) (source_id : String) : List Chunk :=
  chunks ++ [{ id := _generate_chunk_id source_id chunks.length,
               text := text,
               metadata := dictSet metadata "chunk_index" (MVal.nat chunks.length) }]

/-- The overflow-window loop: `for i in range(0, len(segment), chunk_size -
overlap): sub = segment[i : i + chunk_size].strip(); if sub: append`. -/
def windowChunks (chunk_size overlap : Nat) (metadata : List (String × MVal))
    (source_id : String) (segment : List Char) (chunks : List Chunk) : List Chunk :=
  (pyRangeUp segment.length (chunk_size - overlap)).foldl
    (fun ch i =>
      let sub := pyStrip ((segment.drop i).take chunk_size)
      if sub = [] then ch else _append_chunk ch sub metadata source_id)
    chunks

/-- The running buffer state of the chunking loop. -/
structure ChunkState where
  chunks : List Chunk
  current : List Char
deriving DecidableEq

/-- One iteration of the shared buffer/flush/overflow loop of `chunk_law_text`
and `chunk_precedent_text`. -/
def processSegment (chunk_size overlap : Nat) (metadata : List (String × MVal))
    (source_id : String) (st : ChunkState) (segment : List Char) : ChunkState :=
  if st.current.length + segment.length + 1 ≤ chunk_size then
    { st with current := if st.current = [] then segment
                         else st.current ++ [' '] ++ segment }
  else
    let chunks₁ := if st.current = [] then st.chunks
                   else _append_chunk st.chunks st.current metadata source_id
    if chunk_size < segment.length then
      { chunks := windowChunks chunk_size overlap metadata source_id segment chunks₁,
        current := [] }
    else
      { chunks := chunks₁, current := segment }

/-- The shared loop over segments plus the final residual-buffer flush. -/
def chunkCore (segments : List (List Char)) (metadata : List (String × MVal))
    (chunk_size overlap : Nat) (source_id : String) : List Chunk :=
  let st := segments.foldl (processSegment chunk_size overlap metadata source_id)
    ⟨[], []⟩
  if pyStrip st.current = [] then st.chunks
  else _append_chunk st.chunks (pyStrip st.current) metadata source_id

/-- Does `제\d+조[\s(]` match at the head of `l`? -/
def lawBoundaryAt (l : List Char) : Bool :=
  match l with
  | '제' :: rest =>
    let ds := rest.takeWhile Char.isDigit
    match ds, rest.drop ds.length with
    | _ :: _, '조' :: d :: _ => d.isWhitespace || d = '('
    | _, _ => false
  | _ => false

/-- Model of `re.split(r"(?=제\d+조[\s(])", cleaned)`: cut before every article marker
(a zero-width match at position 0 yields a leading empty piece). -/
def lawSplitGo : Nat → List Char → List Char → List (List Char)
  | _, acc, [] => [acc.reverse]
  | 0, acc, l => [acc.reverse ++ l]
  | fuel + 1, acc, c :: rest =>
    if lawBoundaryAt (c :: rest) then
      acc.reverse :: lawSplitGo fuel [c] rest
    else lawSplitGo fuel (c :: acc) rest

def lawSplit (cleaned : List Char) : List (List Char) :=
  match cleaned with
  | [] => [[]]
  | c :: rest =>
    if lawBoundaryAt (c :: rest) then [] :: lawSplitGo rest.length [c] rest
    else lawSplitGo rest.length [c] rest

/-- Model of `chunk_law_text` (`core/legal_rag.py`), with the cosmetic difference that
`chunk_size` and `overlap` are explicit (the source defaults them to 800 and
150). -/
def chunk_law_text (text : List Char) (metadata : List (String × MVal))
    (chunk_size overlap : Nat) : List Chunk :=
  let cleaned := _clean_html text
  if cleaned = [] then []
  else
    let source_id := metaSourceId metadata
    let segments := ((lawSplit cleaned).map pyStrip).filter (fun s => s ≠ [])
    let segments := if segments = [] then [cleaned] else segments
    chunkCore segments metadata chunk_size overlap source_id

/-- The section headers of the precedent splitter. -/
def precHeaders : List String :=
  ["판시사항", "판결요지", "참조조문", "참조판례", "판례내용", "이유", "주문", "청구취지"]

/-- Does `\[(판시사항|…)\]` match at the head of `l`?  Returns the captured
header name. -/
def precHeaderAt (l : List Char) : Option String :=
  match l with
  | '[' :: rest =>
    precHeaders.findSome? (fun h =>
      if startsWithChars (h.toList ++ [']']) rest then some h else none)
  | _ => none

/-- Model of `re.split(r"(?=\[(판시사항|…)\])", cleaned)`: pieces interleaved with the
captured header names, as `re.split` returns when the pattern has a group. -/
def precSplitGo : Nat → List Char → List Char → List String
  | _, acc, [] => [String.mk acc.reverse]
  | 0, acc, l => [String.mk (acc.reverse ++ l)]
  | fuel + 1, acc, c :: rest =>
    match precHeaderAt (c :: rest) with
    | some h => String.mk acc.reverse :: h :: precSplitGo fuel [c] rest
    | none => precSplitGo fuel (c :: acc) rest

def precSplit (cleaned : List Char) : List String :=
  match cleaned with
  | [] => [""]
  | c :: rest =>
    match precHeaderAt (c :: rest) with
    | some h => "" :: h :: precSplitGo rest.length [c] rest
    | none => precSplitGo rest.length [c] rest

/-- The merge loop of `chunk_precedent_text`: re-attach each captured header
name to the segment that follows it. -/
def mergeSegments : List String → List (List Char)
  | [] => []
  | s :: rest =>
    let seg := pyStrip s.toList
    if precHeaders.contains (String.mk seg) then
      match rest with
      | t :: rest₂ =>
        ('[' :: seg ++ [']', ' '] ++ pyStrip t.toList) :: mergeSegments rest₂
      | [] => [('[' :: seg ++ [']'])]
    else if seg = [] then mergeSegments rest
    else seg :: mergeSegments rest

/-- Model of `chunk_precedent_text` (`core/legal_rag.py`), `chunk_size`/`overlap`
explicit (source defaults: 1200 and 300). -/
def chunk_precedent_text (text : List Char) (metadata : List (String × MVal))
    (chunk_size overlap : Nat) : List Chunk :=
  let cleaned := _clean_html text
  if cleaned = [] then []
  else
    let source_id := metaSourceId metadata
    let merged := mergeSegments (precSplit cleaned)
    let merged := if merged = [] then [cleaned] else merged
    chunkCore merged metadata chunk_size overlap source_id

/-! ## The TF-IDF `VectorStore` and `search_legal_context` of `core/legal_rag.py` -/

/-- A stored document: `{"text": ..., "metadata": ...}`. -/
structure StoredDoc where
  text : List Char
  metadata : List (String × MVal)
deriving DecidableEq

/-- Model of `VectorStore._docs`. -/
def VectorStore : Type := List (String × StoredDoc)

instance : DecidableEq VectorStore := by
  unfold VectorStore; infer_instance

/-- Model of `VectorStore.upsert(ids, documents, metadatas)`: positionwise dict
assignment over `zip(ids, documents, metadatas)`. -/
def VectorStore.upsert (s : VectorStore) (ids : List String)
    (documents : List (List Char)) (metadatas : List (List (String × MVal))) :
    VectorStore :=
  (ids.zip (documents.zip metadatas)).foldl
    (fun st p => dictSet st p.1 ⟨p.2.1, p.2.2⟩) s

/-- Model of `VectorStore.count()`. -/
def VectorStore.count (s : VectorStore) : Nat := s.length

/-- A query result `{"text", "metadata", "score"}`. -/
structure QueryHit where
  text : List Char
  metadata : List (String × MVal)
  score : ℚ
deriving DecidableEq

/-- Model of `similarities[i] = word_sim[i] * 0.6 + char_sim[i] * 0.4`, with a missing
vectorizer replaced by zeros. -/
def simCombined (wordSim charSim : Option (List ℚ)) (i : Nat) : ℚ :=
  (6/10) * ((wordSim.getD []).getD i 0) + (4/10) * ((charSim.getD []).getD i 0)

/-- Model of `np.argsort(similarities)[::-1][:n_results]` followed by the
`score <= 0: continue` filter, at the level of document positions. -/
def queryTopIndices (s : VectorStore) (wordSim charSim : Option (List ℚ))
    (n_results : Nat) : List Nat :=
  (((sortDesc (simCombined wordSim charSim) (List.range s.length)).take n_results).filter
    (fun i => 0 < simCombined wordSim charSim i))

/-- Model of `VectorStore.query` (`core/legal_rag.py`): hybrid word/char TF-IDF cosine
ranking, top `n_results`, positive scores only, rounded to 4 decimals. -/
def VectorStore.query (s : VectorStore) (wordSim charSim : Option (List ℚ))
    (n_results : Nat) : List QueryHit :=
  if s = [] then []
  else
    (queryTopIndices s wordSim charSim n_results).filterMap (fun i =>
      (s.get? i).map (fun p =>
        { text := p.2.text, metadata := p.2.metadata,
          score := round4 (simCombined wordSim charSim i) }))

/-- One collection as seen by `search_legal_context`: its store plus the two
similarity vectors its query-time vectorizers would produce. -/
def SearchCollection : Type := VectorStore × Option (List ℚ) × Option (List ℚ)

/-- Model of `search_legal_context` (`core/legal_rag.py`): per-collection query with
`n_results = top_k`, threshold filter, global descending sort, truncation to
`top_k`.  Collections with `count() == 0` are skipped; the DB logging calls
have no effect on the returned list and are omitted. -/
def search_legal_context (cols : List SearchCollection) (top_k : Nat)
    (score_threshold : ℚ) : List QueryHit :=
  let results := cols.foldl
    (fun acc c =>
      if c.1.count = 0 then acc
      else acc ++ (c.1.query c.2.1 c.2.2 top_k).filter
        (fun h => score_threshold ≤ h.score))
    []
  (sortDesc (fun h => h.score) results).take top_k

/-! ## The hybrid RRF `search_legal_context` of `core/langchain_rag.py` -/

/-- An input item of the fusion step: `{"text", "metadata", "score"}`. -/
structure LItem where
  text : String
  metadata : List (String × MVal)
  score : ℚ
deriving DecidableEq

/-- Model of `hashlib.md5(result["text"][:100].encode()).hexdigest()`, modelled by the
(injective) 100-character prefix itself. -/
def fingerprint (x : LItem) : String := x.text.take 100

/-- Model of `result["metadata"].get("source_type", "unknown")`. -/
def sourceTypeOf (metadata : List (String × MVal)) : String :=
  match lookupKV "source_type" metadata with
  | some v => mvalStr v
  | none => "unknown"

/-- Model of `SOURCE_WEIGHTS.get(source_type, 0.5)`. -/
def sourceWeight (source_type : String) : ℚ :=
  if source_type = "law" then 1
  else if source_type = "precedent" then 9/10
  else if source_type = "store_policy" then 4/5
  else 1/2

/-- Model of `combined_scores[k] = combined_scores.get(k, 0) + v`. -/
def bumpScore (m : List (String × ℚ)) (k : String) (v : ℚ) : List (String × ℚ) :=
  match lookupKV k m with
  | some old => dictSet m k (old + v)
  | none => m ++ [(k, v)]

/-- Model of `(lookupKV k m).getD 0`: a missing fusion score reads as 0. -/
def getScore (m : List (String × ℚ)) (k : String) : ℚ := (lookupKV k m).getD 0

/-- One channel of the RRF loop: starting at rank `r`, add
`w / (60 + rank)` to each item's fused score, keyed by fingerprint. -/
def addChannel (w : ℚ) : Nat → List LItem → List (String × ℚ) → List (String × ℚ)
  | _, [], m => m
  | r, x :: xs, m =>
    addChannel w (r + 1) xs (bumpScore m (fingerprint x) (w / (60 + (r : ℚ))))

/-- Model of `combined_scores` after both RRF loops: semantic at weight 0.7, keyword at
weight 0.3. -/
def rrfCombinedScores (semantic keyword : List LItem) : List (String × ℚ) :=
  addChannel (3/10) 0 keyword (addChannel (7/10) 0 semantic [])

/-- Model of `result_data`: the semantic loop assigns unconditionally, the keyword loop
only fills absent keys. -/
def resultData (semantic keyword : List LItem) : List (String × LItem) :=
  keyword.foldl
    (fun m x => if (lookupKV (fingerprint x) m).isSome then m
                else m ++ [(fingerprint x, x)])
    (semantic.foldl (fun m x => dictSet m (fingerprint x) x) [])

/-- An item of the merged list, carrying `hybrid_score` and `weighted_score`
alongside the original fields. -/
structure HItem where
  text : String
  metadata : List (String × MVal)
  score : ℚ
  hybrid : ℚ
  weighted : ℚ
deriving DecidableEq

/-- The source-weighting pass: `weighted_score = round(hybrid_score *
SOURCE_WEIGHTS.get(source_type, 0.5), 4)` (in the hybrid path the base score
is always `hybrid_score`). -/
def applyWeights (l : List HItem) : List HItem :=
  l.map (fun r =>
    { r with weighted := round4 (r.hybrid * sourceWeight (sourceTypeOf r.metadata)) })

/-- The final descending sort of the weighted items, as performed by
`hybrid_search_legal_context` before thresholding. -/
def weightedSort (l : List HItem) : List HItem :=
  sortDesc (fun r => r.weighted) (applyWeights l)

/-- Model of the cache-bypassing computation performed by `search_legal_context`
(`core/langchain_rag.py`, `use_hybrid=True`) whenever the cache is disabled,
missed, or stale: RRF fusion over the two channel result lists,
`sorted_keys[:top_k * 2]`, source weighting, stable descending sort by
`weighted_score`, pre-fusion-score threshold filter, truncation to `top_k`.
The full entrypoint, result cache included, is
`langchain_search_legal_context` below. -/
def hybrid_search_legal_context (semantic keyword : List LItem) (top_k : Nat)
    (score_threshold : ℚ) : List HItem :=
  let cs := rrfCombinedScores semantic keyword
  let rd := resultData semantic keyword
  let sortedKeys := sortDesc (fun k => getScore cs k) (cs.map Prod.fst)
  let merged := (sortedKeys.take (top_k * 2)).filterMap (fun k =>
    (lookupKV k rd).map (fun it =>
      ({ text := it.text, metadata := it.metadata, score := it.score,
         hybrid := round4 (getScore cs k), weighted := 0 } : HItem)))
  ((weightedSort merged).filter
    (fun r => score_threshold ≤ r.score)).take top_k

/-- Model of the cache key
`hashlib.md5(f"{query}:{top_k}:{collections}".encode()).hexdigest()`: the md5
digest is modelled by its (injective) preimage data, which is determined by
exactly `query`, `top_k` and `collections` — `score_threshold` is not part of
the key. -/
abbrev CacheKey : Type := String × Nat × Option (List String)

/-- Model of the module-level result cache `_search_cache`: an
insertion-ordered dict from cache key to `(cached_time, cached_result)`. -/
abbrev SearchCache : Type := List (CacheKey × (ℚ × List HItem))

/-- Dict lookup `_search_cache[cache_key]` / `cache_key in _search_cache`. -/
def cacheGet (k : CacheKey) : SearchCache → Option (ℚ × List HItem)
  | [] => none
  | (k₂, v) :: rest => if k₂ = k then some v else cacheGet k rest

/-- Dict assignment `_search_cache[cache_key] = (time.time(), results)`. -/
def cacheSet : SearchCache → CacheKey → ℚ × List HItem → SearchCache
  | [], k, v => [(k, v)]
  | (k₂, v₂) :: rest, k, v =>
    if k₂ = k then (k, v) :: rest else (k₂, v₂) :: cacheSet rest k v

/-- Model of the full `search_legal_context` entrypoint
(`core/langchain_rag.py`, `use_hybrid=True`), caching included (improvement
number 5, `CACHE_TTL = 300`): with `use_cache` (the default is `True`), a
cache entry under the key that is younger than 300 seconds is returned
verbatim — before the query expansion, the channels, or `score_threshold` are
consulted; otherwise the hybrid computation runs and its result is stored
under the key.  `now` stands for `time.time()` (the freshness check and the
store are two nearby calls in the source; one value models both), `semantic`
and `keyword` are the channel result lists this call would compute, and the
returned pair is the result list together with the updated cache. -/
def langchain_search_legal_context (query : String) (top_k : Nat)
    (score_threshold : ℚ) (collections : Option (List String)) (use_cache : Bool)
    (semantic keyword : List LItem) (cache : SearchCache) (now : ℚ) :
    List HItem × SearchCache :=
  if use_cache then
    match cacheGet (query, top_k, collections) cache with
    | some (t, cached) =>
      if now - t < 300 then (cached, cache)
      else
        let results := hybrid_search_legal_context semantic keyword top_k score_threshold
        (results, cacheSet cache (query, top_k, collections) (now, results))
    | none =>
      let results := hybrid_search_legal_context semantic keyword top_k score_threshold
      (results, cacheSet cache (query, top_k, collections) (now, results))
  else
    (hybrid_search_legal_context semantic keyword top_k score_threshold, cache)

/-- Specification predicate: every cached result list respects the `top_k`
recorded in its own cache key. -/
abbrev cacheWF (cache : SearchCache) : Prop :=
  ∀ e ∈ cache, (e.2.2).length ≤ e.1.2.1

structure NumpyVectorStore where
  embeddings : Option (List (List ℚ))
  documents : List String
  metadata : List (List (String × MVal))
deriving DecidableEq

/-! ## The numpy store and entrypoint of `legal_rag_advanced.py` -/

/-- Model of `NumpyVectorStore.upsert(embeddings, documents, metadatas)`: pure
appends (`np.vstack` / `list.extend`). -/
def NumpyVectorStore.upsert (s : NumpyVectorStore) (embeddings : List (List ℚ))
    (documents : List String) (metadatas : List (List (String × MVal))) :
    NumpyVectorStore :=
  { embeddings := some ((s.embeddings.getD []) ++ embeddings),
    documents := s.documents ++ documents,
    metadata := s.metadata ++ metadatas }

/-- An advanced-engine hit `{"text", "metadata", "score"}`. -/
structure AItem where
  text : String
  metadata : List (String × MVal)
  score : ℚ
deriving DecidableEq

/-- Model of `AdvancedLegalRAG.search`: sort the concatenated per-store hits by score
descending, keep `top_k`. -/
def advRagSearch (allHits : List AItem) (top_k : Nat) : List AItem :=
  (sortDesc (fun h => h.score) allHits).take top_k

/-- Model of `search_legal_context` (`legal_rag_advanced.py`): threshold filter with the
fallback that relaxes the threshold to 0.1 when no result passes it. -/
def adv_search_legal_context (allHits : List AItem) (top_k : Nat)
    (score_threshold : ℚ) : List AItem :=
  let results := advRagSearch allHits top_k
  let filtered := results.filter (fun r => score_threshold ≤ r.score)
  if filtered = [] ∧ results ≠ [] then
    results.filter (fun r => (1 : ℚ)/10 ≤ r.score)
  else filtered

/-! ## Concrete inputs and specification predicates used by the claims -/

/-- Model of `"font-family: Arial; .btn{color:red}"`. -/
def cssNoiseLine : String := "font-family: Arial; .btn\x7bcolor:red\x7d"

/-- Model of `"font-family: Arial; .btn{color:red}" * 5`. -/
def cssNoiseTimes5 : List Char :=
  (cssNoiseLine ++ cssNoiseLine ++ cssNoiseLine ++ cssNoiseLine ++ cssNoiseLine).toList

/-- The claim's per-channel contribution: the item at 0-based rank `r` of a
channel with weight `w` contributes `w / (60 + r)` to the fused score of its
fingerprint key, and contributions to the same key add up. -/
def channelSum (w : ℚ) (k : String) : Nat → List LItem → ℚ
  | _, [] => 0
  | r, x :: xs =>
    (if fingerprint x = k then w / (60 + (r : ℚ)) else 0) + channelSum w k (r + 1) xs

/-- A hit whose similarity score 0.2 lies below a 0.5 threshold. -/
def c1LowHit : AItem := { text := "t", metadata := [], score := 1/5 }

/-- A semantic hit of similarity 0.2 for the warm-cache counterexample. -/
def c1LowSemHit : LItem :=
  { text := "t", metadata := [("source_type", MVal.str "law")], score := 1/5 }

/-- An input hit of the hybrid channel used by the C1 witness. -/
def c1HybridIn : LItem :=
  { text := "W", metadata := [("source_type", MVal.str "law")], score := 1/2 }

/-- The corresponding merged item produced by the hybrid pipeline. -/
def c1HybridOut : HItem :=
  { text := "W", metadata := [("source_type", MVal.str "law")], score := 1/2,
    hybrid := 117/10000, weighted := 117/10000 }

/-- The cache used by the C1 witness: one fresh entry under `("q", 5, None)`. -/
def c1wCache : SearchCache := [(("q", 5, none), (0, [c1HybridOut]))]

/-- The `(source_id, chunk_index)`-derived metadata shared by the two upserts
of the counterexample. -/
def c2ChunkMeta : List (String × MVal) :=
  [("source_id", MVal.str "law_1"), ("chunk_index", MVal.nat 0)]

/-- The number of entries stored under an id. -/
def occKey (id : String) (s : VectorStore) : Nat :=
  (s.map Prod.fst).count id

/-- Two semantic hits: a statute chunk of similarity 0.4 ranked first by the
channel, a store-policy chunk of similarity 0.9 ranked second. -/
def c3Semantic : List LItem :=
  [{ text := "X", metadata := [("source_type", MVal.str "law")], score := 2/5 },
   { text := "Y", metadata := [("source_type", MVal.str "store_policy")],
     score := 9/10 }]

/-- A one-document store whose word-space similarity is 0 and whose
char-space similarity is 0.0001. -/
def c4Store : VectorStore :=
  [("d1", { text := "doc text".toList, metadata := [("source_type", MVal.str "law")] })]

/-- A statute chunk and a store-policy chunk with identical raw similarity
0.5; the semantic channel ranks the statute first. -/
def c7Law : LItem :=
  { text := "Lx", metadata := [("source_type", MVal.str "law")], score := 1/2 }

def c7Policy : LItem :=
  { text := "Px", metadata := [("source_type", MVal.str "store_policy")],
    score := 1/2 }

/-- Inputs for the C7 witness: a statute item with fused score 0.02 and a
store-policy item with fused score 0.01, listed policy-first. -/
def c7wLaw : HItem :=
  { text := "wl", metadata := [("source_type", MVal.str "law")], score := 1/2,
    hybrid := 2/100, weighted := 0 }

def c7wPolicy : HItem :=
  { text := "wp", metadata := [("source_type", MVal.str "store_policy")],
    score := 1/2, hybrid := 1/100, weighted := 0 }

/-- Every chunk of the list carries `{**metadata, "chunk_index": i}` where `i`
is its position. -/
def chunkIndexed (metadata : List (String × MVal)) (chunks : List Chunk) : Prop :=
  ∀ (i : Nat) (h : i < chunks.length),
    (chunks.get ⟨i, h⟩).metadata = dictSet metadata "chunk_index" (MVal.nat i)

/-- Every chunk of the list has non-empty text of length at most `cs`. -/
def chunkBounded (cs : Nat) (chunks : List Chunk) : Prop :=
  ∀ ch ∈ chunks, ch.text ≠ [] ∧ ch.text.length ≤ cs

/-- The parent metadata and text of the C9/C10 witnesses. -/
def c9Meta : List (String × MVal) :=
  [("source_id", MVal.str "L"), ("law_name", MVal.str "N")]

def c9Text : List Char := "hello world legal text".toList

/-! ## Helper lemmas -/

theorem lookupKV_dictSet_self {α : Type} (m : List (String × α)) (k : String) (v : α) :
    lookupKV k (dictSet m k v) = some v := by
  induction m with
  | nil => simp [dictSet, lookupKV]
  | cons p rest ih =>
    by_cases h : p.1 = k
    · simp [dictSet, h, lookupKV]
    · simp [dictSet, h, lookupKV, ih]

theorem lookupKV_dictSet_ne {α : Type} (m : List (String × α)) (k k₂ : String) (v : α)
    (h : k₂ ≠ k) : lookupKV k₂ (dictSet m k v) = lookupKV k₂ m := by
  have hne : ¬ k = k₂ := Ne.symm h
  induction m with
  | nil => simp [dictSet, lookupKV, hne]
  | cons p rest ih =>
    by_cases hp : p.1 = k
    · subst hp
      simp [dictSet, lookupKV, hne]
    · simp only [dictSet, if_neg hp]
      by_cases hq : p.1 = k₂
      · simp [lookupKV, hq]
      · simp [lookupKV, hq, ih]

theorem dictSet_length_of_mem {α : Type} (m : List (String × α)) (k : String) (v : α)
    (h : (lookupKV k m).isSome) : (dictSet m k v).length = m.length := by
  induction m with
  | nil => simp [lookupKV] at h
  | cons p rest ih =>
    by_cases hp : p.1 = k
    · simp [dictSet, hp]
    · simp only [lookupKV, if_neg hp] at h
      simp [dictSet, hp, ih h]

theorem lookupKV_isSome_dictSet {α : Type} (m : List (String × α)) (k k₂ : String) (v : α)
    (h : (lookupKV k₂ m).isSome) : (lookupKV k₂ (dictSet m k v)).isSome := by
  by_cases hk : k₂ = k
  · subst hk; simp [lookupKV_dictSet_self]
  · rwa [lookupKV_dictSet_ne _ _ _ _ hk]

/-- Keys of `dictSet m k v`: unchanged when `k` is present, else `++ [k]`. -/
theorem dictSet_keys {α : Type} (m : List (String × α)) (k : String) (v : α) :
    (dictSet m k v).map Prod.fst =
      if (lookupKV k m).isSome then m.map Prod.fst else m.map Prod.fst ++ [k] := by
  induction m with
  | nil => simp [dictSet, lookupKV]
  | cons p rest ih =>
    by_cases hp : p.1 = k
    · simp [dictSet, hp, lookupKV]
    · simp only [dictSet, if_neg hp, lookupKV, List.map_cons, ih]
      by_cases hs : (lookupKV k rest).isSome <;> simp [hs, hp]

theorem sortDesc_pairwise {α : Type} (key : α → ℚ) (l : List α) :
    (sortDesc key l).Pairwise (fun a b => key b ≤ key a) := by
  haveI : IsTotal α (fun a b => key b ≤ key a) := ⟨fun a b => (le_total (key b) (key a))⟩
  haveI : IsTrans α (fun a b => key b ≤ key a) :=
    ⟨fun _ _ _ h₁ h₂ => le_trans h₂ h₁⟩
  exact List.sorted_insertionSort _ l

theorem sortDesc_perm {α : Type} (key : α → ℚ) (l : List α) :
    List.Perm (sortDesc key l) l :=
  List.perm_insertionSort _ l

theorem mem_sortDesc {α : Type} (key : α → ℚ) (l : List α) (a : α) :
    a ∈ sortDesc key l ↔ a ∈ l :=
  (sortDesc_perm key l).mem_iff

/-- Fold invariance: an invariant preserved by each step survives `foldl`. -/
theorem foldl_inv {α β : Type} (P : β → Prop) (f : β → α → β)
    (hstep : ∀ b a, P b → P (f b a)) :
    ∀ (l : List α) (b : β), P b → P (l.foldl f b) := by
  intro l
  induction l with
  | nil => intro b hb; simpa using hb
  | cons x xs ih => intro b hb; exact ih (f b x) (hstep b x hb)

theorem pyStrip_length_le (l : List Char) : (pyStrip l).length ≤ l.length := by
  have h₁ : ∀ (m : List Char), (m.dropWhile Char.isWhitespace).length ≤ m.length := by
    intro m
    exact (List.dropWhile_sublist _).length_le
  calc (pyStrip l).length
      = ((l.dropWhile Char.isWhitespace).reverse.dropWhile Char.isWhitespace).length := by
        simp [pyStrip]
    _ ≤ (l.dropWhile Char.isWhitespace).reverse.length := h₁ _
    _ = (l.dropWhile Char.isWhitespace).length := by simp
    _ ≤ l.length := h₁ l

/-! ## The claims -/

set_option maxRecDepth 8000 in
/-- C5: `validate_legal_document` rejects every text shorter than 10
characters (in particular the empty text), every text with at least 3 matches
of the noise-pattern set, and every text whose `/`-to-length ratio exceeds
0.05; in particular the CSS string repeated 5 times is rejected for every
source type. -/
theorem C5_noise_filter_rejects :
    (∀ (text : List Char) (source_type : String), text.length < 10 →
      validate_legal_document text source_type = false) ∧
    (∀ (text : List Char) (source_type : String), 3 ≤ noiseMatchCount text →
      validate_legal_document text source_type = false) ∧
    (∀ (text : List Char) (source_type : String), (1 : ℚ)/20 < slash_ratio text →
      validate_legal_document text source_type = false) ∧
    (∀ source_type : String,
      validate_legal_document cssNoiseTimes5 source_type = false) := by
  have hreject : ∀ (text : List Char) (source_type : String),
      is_noise_text text = true → validate_legal_document text source_type = false := by
    intro t st hno
    unfold validate_legal_document
    by_cases hs : pyStrip t = []
    · rw [if_pos hs]
    · rw [if_neg hs, if_pos hno]
  refine ⟨?_, ?_, ?_, ?_⟩
  · intro t st h
    apply hreject
    unfold is_noise_text
    have := pyStrip_length_le t
    rw [if_pos (Or.inr (by omega))]
  · intro t st h
    apply hreject
    unfold is_noise_text
    by_cases h₁ : t = [] ∨ (pyStrip t).length < 10
    · rw [if_pos h₁]
    · rw [if_neg h₁, if_pos h]
  · intro t st h
    apply hreject
    unfold is_noise_text
    by_cases h₁ : t = [] ∨ (pyStrip t).length < 10
    · rw [if_pos h₁]
    · rw [if_neg h₁]
      by_cases h₂ : 3 ≤ noiseMatchCount t
      · rw [if_pos h₂]
      · rw [if_neg h₂, if_pos h]
  · intro st
    apply hreject
    decide

set_option maxRecDepth 8000 in
/-- Witness for C5: a 5-character text, the CSS string (5 noise matches), and
a 12-slash text are each rejected, via the theorem. -/
theorem C5_noise_filter_rejects_witness :
    validate_legal_document "short".toList "law" = false ∧
    validate_legal_document cssNoiseTimes5 "store_policy" = false ∧
    validate_legal_document (List.replicate 12 '/') "precedent" = false :=
  ⟨C5_noise_filter_rejects.1 "short".toList "law" (by decide),
   C5_noise_filter_rejects.2.1 cssNoiseTimes5 "store_policy" (by decide),
   C5_noise_filter_rejects.2.2.1 (List.replicate 12 '/') "precedent"
     (by decide)⟩

theorem lookupKV_append_of_none {α : Type} (k : String) (m l : List (String × α))
    (h : lookupKV k m = none) : lookupKV k (m ++ l) = lookupKV k l := by
  induction m with
  | nil => simp
  | cons p rest ih =>
    by_cases hp : p.1 = k
    · simp [lookupKV, hp] at h
    · simp only [lookupKV, if_neg hp] at h
      simpa [lookupKV, hp] using ih h

theorem lookupKV_append_of_some {α : Type} (k : String) (m l : List (String × α))
    (v : α) (h : lookupKV k m = some v) : lookupKV k (m ++ l) = some v := by
  induction m with
  | nil => simp [lookupKV] at h
  | cons p rest ih =>
    by_cases hp : p.1 = k
    · simp only [lookupKV, if_pos hp] at h
      simpa [lookupKV, hp] using h
    · simp only [lookupKV, if_neg hp] at h
      simpa [lookupKV, hp] using ih h

theorem getScore_bumpScore (m : List (String × ℚ)) (k k₂ : String) (v : ℚ) :
    getScore (bumpScore m k v) k₂ = getScore m k₂ + (if k = k₂ then v else 0) := by
  unfold bumpScore
  cases h : lookupKV k m with
  | some old =>
    by_cases hk : k = k₂
    · subst hk
      simp [getScore, lookupKV_dictSet_self, h]
    · simp [getScore, lookupKV_dictSet_ne m k k₂ (old + v) (Ne.symm hk), hk]
  | none =>
    by_cases hk : k = k₂
    · subst hk
      simp [getScore, lookupKV_append_of_none k m _ h, lookupKV, h]
    · rcases h₂ : lookupKV k₂ m with _ | w
      · simp [getScore, lookupKV_append_of_none k₂ m _ h₂, lookupKV, Ne.symm hk, hk, h₂]
      · simp [getScore, lookupKV_append_of_some k₂ m _ w h₂, hk, h₂]

theorem getScore_addChannel (w : ℚ) (k : String) :
    ∀ (xs : List LItem) (r : Nat) (m : List (String × ℚ)),
      getScore (addChannel w r xs m) k = getScore m k + channelSum w k r xs := by
  intro xs
  induction xs with
  | nil => intro r m; simp [addChannel, channelSum]
  | cons x xs ih =>
    intro r m
    simp only [addChannel, channelSum]
    rw [ih, getScore_bumpScore]
    ring

/-- C6: in the hybrid ranker's fusion step, the fused score of every
fingerprint key (the first 100 characters of the item text) is the sum of
`0.7 / (60 + r)` over the semantic ranks `r` at which the key occurs plus
`0.3 / (60 + r)` over its keyword ranks — so an item found by both channels
receives the sum of its per-channel fusion scores. -/
theorem C6_rrf_fusion_scores :
    ∀ (semantic keyword : List LItem) (k : String),
      getScore (rrfCombinedScores semantic keyword) k =
        channelSum (7/10) k 0 semantic + channelSum (3/10) k 0 keyword := by
  intro sem kw k
  unfold rrfCombinedScores
  rw [getScore_addChannel, getScore_addChannel]
  simp [getScore, lookupKV]

/-- C8: querying an empty collection yields `[]`; querying a collection whose
two vectorizers both fail to build a vocabulary (both similarity channels
absent) yields `[]` because every combined score is zero; and
`search_legal_context` over empty collections (in particular an empty
collection list) returns `[]` — all without any exceptional outcome, the
embedded functions being total. -/
theorem C8_empty_and_degenerate :
    (∀ (wordSim charSim : Option (List ℚ)) (n : Nat),
      VectorStore.query [] wordSim charSim n = []) ∧
    (∀ (s : VectorStore) (n : Nat), s.query none none n = []) ∧
    (∀ (cols : List SearchCollection) (top_k : Nat) (thr : ℚ),
      (∀ p ∈ cols, p.1 = ([] : VectorStore)) →
      search_legal_context cols top_k thr = []) := by
  refine ⟨?_, ?_, ?_⟩
  · intro w c n
    simp [VectorStore.query]
  · intro s n
    unfold VectorStore.query
    by_cases hs : s = []
    · rw [if_pos hs]
    · rw [if_neg hs]
      have hidx : queryTopIndices s none none n = [] := by
        unfold queryTopIndices
        apply List.filter_eq_nil_iff.mpr
        intro i _
        simp [simCombined]
      rw [hidx]
      rfl
  · intro cols top_k thr hcols
    unfold search_legal_context
    have hfold : ∀ (l : List SearchCollection) (acc : List QueryHit),
        (∀ p ∈ l, p.1 = ([] : VectorStore)) →
        (l.foldl
          (fun acc c =>
            if c.1.count = 0 then acc
            else acc ++ (c.1.query c.2.1 c.2.2 top_k).filter
              (fun h => thr ≤ h.score)) acc) = acc := by
      intro l
      induction l with
      | nil => intro acc _; rfl
      | cons c l ih =>
        intro acc hall
        have hc : c.1 = ([] : VectorStore) := hall c (List.mem_cons_self c l)
        have hcount : c.1.count = 0 := by rw [hc]; rfl
        simp only [List.foldl_cons, if_pos hcount]
        exact ih acc (fun p hp => hall p (List.mem_cons_of_mem c hp))
    rw [hfold cols [] hcols]
    simp [sortDesc]

/-- Witness for C8: a one-collection list holding a freshly cleared (empty)
store yields `[]`, via the theorem. -/
theorem C8_empty_and_degenerate_witness :
    search_legal_context [(([] : VectorStore), none, none)] 5 (7/10) = [] :=
  C8_empty_and_degenerate.2.2 [(([] : VectorStore), none, none)] 5 (7/10)
    (by intro p hp; rw [List.mem_singleton] at hp; rw [hp])

theorem cacheGet_mem (k : CacheKey) (c : SearchCache) (v : ℚ × List HItem)
    (h : cacheGet k c = some v) : (k, v) ∈ c := by
  induction c with
  | nil => simp [cacheGet] at h
  | cons p rest ih =>
    by_cases hp : p.1 = k
    · simp only [cacheGet, if_pos hp] at h
      cases h
      rw [← hp]
      exact List.mem_cons_self _ _
    · simp only [cacheGet, if_neg hp] at h
      exact List.mem_cons_of_mem _ (ih h)

theorem cacheSet_mem (c : SearchCache) (k : CacheKey) (v : ℚ × List HItem) :
    ∀ e ∈ cacheSet c k v, e ∈ c ∨ e = (k, v) := by
  induction c with
  | nil =>
    intro e he
    rw [cacheSet, List.mem_singleton] at he
    exact Or.inr he
  | cons p rest ih =>
    intro e he
    by_cases hp : p.1 = k
    · rw [cacheSet, if_pos hp] at he
      rcases List.mem_cons.mp he with he | he
      · exact Or.inr he
      · exact Or.inl (List.mem_cons_of_mem _ he)
    · rw [cacheSet, if_neg hp] at he
      rcases List.mem_cons.mp he with he | he
      · exact Or.inl (he ▸ List.mem_cons_self _ _)
      · rcases ih e he with h | h
        · exact Or.inl (List.mem_cons_of_mem _ h)
        · exact Or.inr h

set_option maxRecDepth 8000 in
/-- C1 counterexample, both violating paths.  First, the advanced engine's
`search_legal_context`, called with `score_threshold = 0.5` on a corpus whose
only hit scores 0.2, returns that hit — its fallback relaxes the threshold to
0.1 when nothing passes.  Second, the langchain entrypoint with the default
`use_cache=True`: a first call with threshold 0.1 stores its result (one item
of pre-fusion score 0.2) under the key `(query, top_k, collections)`, which
omits the threshold; a second call 100 seconds later with the same query,
`top_k` and collections but threshold 0.5 replays the cached item, whose score
0.2 is below the supplied threshold. -/
theorem C1_counterexample :
    (adv_search_legal_context [c1LowHit] 5 (1/2) = [c1LowHit] ∧
      ¬ ((1 : ℚ)/2 ≤ c1LowHit.score)) ∧
    ((langchain_search_legal_context "q" 5 (1/2) none true [] []
        (langchain_search_legal_context "q" 5 (1/10) none true [c1LowSemHit] [] [] 0).2
        100).1.map (fun r => r.score) = [1/5] ∧
      ¬ ((1 : ℚ)/2 ≤ (1 : ℚ)/5)) := by
  decide

/-- C1 amended: threshold enforcement holds exactly for the evaluations that
bypass the cache.  (1) The hybrid computation (run on `use_cache=False`, a
cache miss, or a stale entry) returns at most `top_k` items, each with
pre-fusion score at least `score_threshold`.  (2) Every call of the full
langchain entrypoint either returns that computation's result or replays a
fresh cache entry verbatim.  (3) A warm-cache call returns the cached list
regardless of the supplied `score_threshold` (and of the channels), because
the cache key omits the threshold — so the threshold of the storing call, not
the current one, is what its items satisfied.  (4) The `top_k` bound holds for
every call, warm or cold, as long as every cache entry respects its own key's
`top_k` — an invariant every call preserves.  (5) The advanced entrypoint
returns at most `top_k` items with scores at least
`min score_threshold 0.1` (its fallback threshold). -/
theorem C1_amended_threshold_topk :
    (∀ (semantic keyword : List LItem) (top_k : Nat) (thr : ℚ),
       (hybrid_search_legal_context semantic keyword top_k thr).length ≤ top_k ∧
       ∀ r ∈ hybrid_search_legal_context semantic keyword top_k thr, thr ≤ r.score) ∧
    (∀ (query : String) (top_k : Nat) (thr : ℚ) (collections : Option (List String))
        (use_cache : Bool) (semantic keyword : List LItem) (cache : SearchCache)
        (now : ℚ),
       (langchain_search_legal_context query top_k thr collections use_cache
           semantic keyword cache now).1
         = hybrid_search_legal_context semantic keyword top_k thr ∨
       ∃ t cached, cacheGet (query, top_k, collections) cache = some (t, cached) ∧
         now - t < 300 ∧ use_cache = true ∧
         (langchain_search_legal_context query top_k thr collections use_cache
             semantic keyword cache now).1 = cached) ∧
    (∀ (query : String) (top_k : Nat) (thr : ℚ) (collections : Option (List String))
        (semantic keyword : List LItem) (cache : SearchCache) (now t : ℚ)
        (cached : List HItem),
       cacheGet (query, top_k, collections) cache = some (t, cached) →
       now - t < 300 →
       (langchain_search_legal_context query top_k thr collections true
           semantic keyword cache now).1 = cached) ∧
    (∀ (query : String) (top_k : Nat) (thr : ℚ) (collections : Option (List String))
        (use_cache : Bool) (semantic keyword : List LItem) (cache : SearchCache)
        (now : ℚ),
       cacheWF cache →
       (langchain_search_legal_context query top_k thr collections use_cache
           semantic keyword cache now).1.length ≤ top_k ∧
       cacheWF (langchain_search_legal_context query top_k thr collections use_cache
           semantic keyword cache now).2) ∧
    (∀ (allHits : List AItem) (top_k : Nat) (thr : ℚ),
       (adv_search_legal_context allHits top_k thr).length ≤ top_k ∧
       ∀ r ∈ adv_search_legal_context allHits top_k thr,
         min thr ((1 : ℚ)/10) ≤ r.score) := by
  have hcore : ∀ (sem kw : List LItem) (k : Nat) (thr : ℚ),
      (hybrid_search_legal_context sem kw k thr).length ≤ k ∧
      ∀ r ∈ hybrid_search_legal_context sem kw k thr, thr ≤ r.score := by
    intro sem kw k thr
    constructor
    · exact List.length_take_le _ _
    · intro r hr
      unfold hybrid_search_legal_context at hr
      have hr₂ := (List.take_sublist _ _).mem hr
      exact of_decide_eq_true (List.mem_filter.mp hr₂).2
  refine ⟨hcore, ?_, ?_, ?_, ?_⟩
  · intro q k thr cols uc sem kw cache now
    unfold langchain_search_legal_context
    by_cases huc : uc = true
    · rw [if_pos huc]
      cases hget : cacheGet (q, k, cols) cache with
      | none => simp only [hget]; left; trivial
      | some tv =>
        obtain ⟨t, cached⟩ := tv
        simp only [hget]
        by_cases hf : now - t < 300
        · rw [if_pos hf]
          exact Or.inr ⟨t, cached, rfl, hf, huc, rfl⟩
        · rw [if_neg hf]
          left; rfl
    · rw [if_neg huc]
      left; rfl
  · intro q k thr cols sem kw cache now t cached hget hf
    unfold langchain_search_legal_context
    rw [if_pos rfl]
    simp only [hget]
    rw [if_pos hf]
  · intro q k thr cols uc sem kw cache now hwf
    have hsetwf : ∀ (res : List HItem), res.length ≤ k →
        cacheWF (cacheSet cache (q, k, cols) (now, res)) := by
      intro res hres e he
      rcases cacheSet_mem cache (q, k, cols) (now, res) e he with hin | heq
      · exact hwf e hin
      · rw [heq]
        exact hres
    unfold langchain_search_legal_context
    by_cases huc : uc = true
    · rw [if_pos huc]
      cases hget : cacheGet (q, k, cols) cache with
      | none =>
        simp only [hget]
        exact ⟨(hcore sem kw k thr).1, hsetwf _ (hcore sem kw k thr).1⟩
      | some tv =>
        obtain ⟨t, cached⟩ := tv
        simp only [hget]
        by_cases hf : now - t < 300
        · rw [if_pos hf]
          exact ⟨hwf _ (cacheGet_mem _ _ _ hget), hwf⟩
        · rw [if_neg hf]
          exact ⟨(hcore sem kw k thr).1, hsetwf _ (hcore sem kw k thr).1⟩
    · rw [if_neg huc]
      exact ⟨(hcore sem kw k thr).1, hwf⟩
  · intro hits top_k thr
    have hlen : ∀ p : AItem → Bool,
        ((advRagSearch hits top_k).filter p).length ≤ top_k :=
      fun p => le_trans (List.length_filter_le _ _) (List.length_take_le _ _)
    unfold adv_search_legal_context
    by_cases hcond : (advRagSearch hits top_k).filter
        (fun r => decide (thr ≤ r.score)) = [] ∧ advRagSearch hits top_k ≠ []
    · rw [if_pos hcond]
      refine ⟨hlen _, ?_⟩
      intro r hr
      have := of_decide_eq_true (List.mem_filter.mp hr).2
      exact le_trans (min_le_right _ _) this
    · rw [if_neg hcond]
      refine ⟨hlen _, ?_⟩
      intro r hr
      have := of_decide_eq_true (List.mem_filter.mp hr).2
      exact le_trans (min_le_left _ _) this

set_option maxRecDepth 8000 in
/-- Witness for C1 amended: on concrete calls, the returned hybrid item passes
the 0.3 threshold; a warm-cache call on a fresh one-entry cache replays the
cached list and respects the `top_k` bound; the advanced fallback item passes
the relaxed bound. -/
theorem C1_amended_threshold_topk_witness :
    (hybrid_search_legal_context [c1HybridIn] [] 5 (3/10)).length ≤ 5 ∧
    (3 : ℚ)/10 ≤ c1HybridOut.score ∧
    (langchain_search_legal_context "q" 5 (1/2) none true [] [] c1wCache 100).1
      = [c1HybridOut] ∧
    (langchain_search_legal_context "q" 5 (1/2) none true [] [] c1wCache 100).1.length
      ≤ 5 ∧
    min ((1 : ℚ)/2) ((1 : ℚ)/10) ≤ c1LowHit.score :=
  ⟨(C1_amended_threshold_topk.1 [c1HybridIn] [] 5 (3/10)).1,
   (C1_amended_threshold_topk.1 [c1HybridIn] [] 5 (3/10)).2 c1HybridOut
     (by decide),
   C1_amended_threshold_topk.2.2.1 "q" 5 (1/2) none [] [] c1wCache 100 0 [c1HybridOut]
     (by decide) (by decide),
   (C1_amended_threshold_topk.2.2.2.1 "q" 5 (1/2) none true [] [] c1wCache 100
     (by decide)).1,
   (C1_amended_threshold_topk.2.2.2.2 [c1LowHit] 5 (1/2)).2 c1LowHit
     (by decide)⟩

/-- C2 counterexample: `NumpyVectorStore.upsert` (which takes no ids) appends
unconditionally, so upserting the same `(source_id, chunk_index)` chunk twice
with texts `"A"` then `"B"` leaves two stored chunks — both texts, duplicated
metadata — not one chunk holding the later text, and the second upsert grows
the collection. -/
theorem C2_counterexample :
    ((NumpyVectorStore.upsert
        (NumpyVectorStore.upsert ⟨none, [], []⟩ [[1]] ["A"] [c2ChunkMeta])
        [[1]] ["B"] [c2ChunkMeta]).documents = ["A", "B"]) ∧
    ((NumpyVectorStore.upsert
        (NumpyVectorStore.upsert ⟨none, [], []⟩ [[1]] ["A"] [c2ChunkMeta])
        [[1]] ["B"] [c2ChunkMeta]).metadata = [c2ChunkMeta, c2ChunkMeta]) ∧
    ¬ ((NumpyVectorStore.upsert
        (NumpyVectorStore.upsert ⟨none, [], []⟩ [[1]] ["A"] [c2ChunkMeta])
        [[1]] ["B"] [c2ChunkMeta]).documents.length = 1) := by
  decide

theorem lookupKV_isSome_iff_mem_keys {α : Type} (k : String)
    (m : List (String × α)) : (lookupKV k m).isSome ↔ k ∈ m.map Prod.fst := by
  induction m with
  | nil => simp [lookupKV]
  | cons p rest ih =>
    by_cases hp : p.1 = k
    · simp [lookupKV, hp]
    · simp [lookupKV, hp, ih, Ne.symm hp]

theorem upsert_single (s : VectorStore) (id : String) (t : List Char)
    (m : List (String × MVal)) :
    s.upsert [id] [t] [m] = dictSet s id ⟨t, m⟩ := rfl

theorem dictSet_keys_nodup (s : VectorStore) (id : String) (d : StoredDoc)
    (h : (s.map Prod.fst).Nodup) : ((dictSet s id d).map Prod.fst).Nodup := by
  rw [dictSet_keys]
  by_cases hmem : (lookupKV id s).isSome
  · rw [if_pos hmem]; exact h
  · rw [if_neg hmem]
    rw [lookupKV_isSome_iff_mem_keys] at hmem
    simp [List.nodup_append, h, hmem]

/-- C2 amended: the id-keyed JSON `VectorStore` behaves exactly as claimed —
upserting the same id twice leaves exactly one entry under that id, holding
the later text, and re-upserting only existing ids never changes the count.
The `NumpyVectorStore`, whose `upsert` takes no ids, instead grows by the full
batch on every upsert, duplicating re-ingested chunks. -/
theorem C2_amended_idempotent_upsert :
    (∀ (s : VectorStore) (id : String) (t₁ t₂ : List Char)
        (m₁ m₂ : List (String × MVal)), (s.map Prod.fst).Nodup →
       occKey id ((s.upsert [id] [t₁] [m₁]).upsert [id] [t₂] [m₂]) = 1 ∧
       lookupKV id ((s.upsert [id] [t₁] [m₁]).upsert [id] [t₂] [m₂]) =
         some ⟨t₂, m₂⟩) ∧
    (∀ (s : VectorStore) (ids : List String) (documents : List (List Char))
        (metadatas : List (List (String × MVal))),
       (∀ id ∈ ids, (lookupKV id s).isSome) →
       (s.upsert ids documents metadatas).count = s.count) ∧
    (∀ (ns : NumpyVectorStore) (embeddings : List (List ℚ))
        (documents : List String) (metadatas : List (List (String × MVal))),
       (ns.upsert embeddings documents metadatas).documents.length =
         ns.documents.length + documents.length) := by
  refine ⟨?_, ?_, ?_⟩
  · intro s id t₁ t₂ m₁ m₂ hnodup
    rw [upsert_single, upsert_single]
    constructor
    · have hnodup₂ : ((dictSet (dictSet s id ⟨t₁, m₁⟩) id ⟨t₂, m₂⟩).map
          Prod.fst).Nodup :=
        dictSet_keys_nodup _ _ _ (dictSet_keys_nodup _ _ _ hnodup)
      have hmem : id ∈ (dictSet (dictSet s id ⟨t₁, m₁⟩) id ⟨t₂, m₂⟩).map Prod.fst := by
        rw [← lookupKV_isSome_iff_mem_keys, lookupKV_dictSet_self]
        rfl
      exact List.count_eq_one_of_mem hnodup₂ hmem
    · exact lookupKV_dictSet_self _ _ _
  · intro s ids documents metadatas hsome
    unfold VectorStore.upsert VectorStore.count
    have haux : ∀ (l : List (String × List Char × List (String × MVal)))
        (st : VectorStore), (∀ q ∈ l, (lookupKV q.1 st).isSome) →
        (l.foldl (fun st p => dictSet st p.1 ⟨p.2.1, p.2.2⟩) st).length = st.length := by
      intro l
      induction l with
      | nil => intro st _; rfl
      | cons q l ih =>
        intro st hall
        have hq := hall q (List.mem_cons_self q l)
        rw [List.foldl_cons, ih _ (fun p hp =>
          lookupKV_isSome_dictSet _ _ _ _ (hall p (List.mem_cons_of_mem q hp)))]
        exact dictSet_length_of_mem _ _ _ hq
    apply haux
    intro q hq
    exact hsome q.1 (List.of_mem_zip hq).1
  · intro ns embeddings documents metadatas
    simp [NumpyVectorStore.upsert]

/-- Witness for C2 amended: from the empty store, two upserts of id `"i"`
leave one entry holding `"B"`; re-upserting the existing id keeps the count at
one; a numpy upsert of one document grows the store by one. -/
theorem C2_amended_idempotent_upsert_witness :
    occKey "i" ((VectorStore.upsert (VectorStore.upsert [] ["i"] ["A".toList] [[]])
      ["i"] ["B".toList] [[]])) = 1 ∧
    lookupKV "i" ((VectorStore.upsert (VectorStore.upsert [] ["i"] ["A".toList] [[]])
      ["i"] ["B".toList] [[]])) = some ⟨"B".toList, []⟩ ∧
    (VectorStore.upsert [("i", ⟨"A".toList, []⟩)] ["i"] ["B".toList] [[]]).count =
      VectorStore.count [("i", ⟨"A".toList, []⟩)] ∧
    (NumpyVectorStore.upsert ⟨none, [], []⟩ [[1]] ["A"] [c2ChunkMeta]).documents.length =
      ([] : List String).length + ["A"].length :=
  ⟨(C2_amended_idempotent_upsert.1 [] "i" "A".toList "B".toList [] [] (by decide)).1,
   (C2_amended_idempotent_upsert.1 [] "i" "A".toList "B".toList [] [] (by decide)).2,
   C2_amended_idempotent_upsert.2.1 [("i", ⟨"A".toList, []⟩)] ["i"] ["B".toList] [[]]
     (by decide),
   C2_amended_idempotent_upsert.2.2 ⟨none, [], []⟩ [[1]] ["A"] [c2ChunkMeta]⟩

set_option maxRecDepth 4000 in
/-- C3 counterexample: the hybrid `search_legal_context` sorts by the weighted
fused score, so its returned `score` fields (the pre-fusion similarities) can
increase along the list: here they are `[0.4, 0.9]`. -/
theorem C3_counterexample :
    ((hybrid_search_legal_context c3Semantic [] 5 (3/10)).map (fun r => r.score) =
      [2/5, 9/10]) ∧
    ¬ ((hybrid_search_legal_context c3Semantic [] 5 (3/10)).map
        (fun r => r.score)).Pairwise (fun a b => b ≤ a) := by
  decide

/-- C3 amended: the TF-IDF engine's `search_legal_context` returns a list
whose `score` fields are non-increasing, as claimed; the hybrid entrypoint
instead guarantees that the `weighted_score` fields (by which it sorts) are
non-increasing, while its pre-fusion `score` fields need not be. -/
theorem C3_amended_score_ordering :
    (∀ (cols : List SearchCollection) (top_k : Nat) (thr : ℚ),
       (search_legal_context cols top_k thr).Pairwise
         (fun a b => b.score ≤ a.score)) ∧
    (∀ (semantic keyword : List LItem) (top_k : Nat) (thr : ℚ),
       (hybrid_search_legal_context semantic keyword top_k thr).Pairwise
         (fun a b => b.weighted ≤ a.weighted)) := by
  constructor
  · intro cols top_k thr
    unfold search_legal_context
    exact List.Pairwise.sublist (List.take_sublist _ _) (sortDesc_pairwise _ _)
  · intro sem kw top_k thr
    unfold hybrid_search_legal_context
    exact List.Pairwise.sublist (List.take_sublist _ _)
      (List.Pairwise.sublist (List.filter_sublist _) (sortDesc_pairwise _ _))

/-- C4 counterexample: with combined score `0.6 * 0 + 0.4 * 0.0001 = 0.00004`
— strictly positive, so the document is returned — the stored score field
`round(0.00004, 4)` is `0.0`: a returned score that is not strictly
positive. -/
theorem C4_counterexample :
    (c4Store.query (some [0]) (some [1/10000]) 5).map (fun h => h.score) = [0] ∧
    ¬ (0 : ℚ) < 0 := by
  decide

/-- C4 amended: every returned item of `VectorStore.query` is a stored
document whose returned score is its combined similarity
`0.6 * word + 0.4 * char` rounded to 4 decimal places, and whose pre-rounding
combined similarity is strictly positive (zero-or-negative combined scores are
excluded — but the rounded field itself may be 0 for combined scores below
0.00005); at most `n_results` items are returned; and the returned documents
are top-scoring: any stored document left out has a combined similarity no
larger than that of any returned one. -/
theorem C4_amended_query :
    ∀ (s : VectorStore) (wordSim charSim : Option (List ℚ)) (n : Nat),
      (s.query wordSim charSim n).length ≤ n ∧
      (∀ r ∈ s.query wordSim charSim n, ∃ i, ∃ h : i < s.length,
         r.text = (s.get ⟨i, h⟩).2.text ∧ r.metadata = (s.get ⟨i, h⟩).2.metadata ∧
         r.score = round4 (simCombined wordSim charSim i) ∧
         0 < simCombined wordSim charSim i) ∧
      (∀ i ∈ queryTopIndices s wordSim charSim n, ∀ j < s.length,
         j ∉ queryTopIndices s wordSim charSim n →
         simCombined wordSim charSim j ≤ simCombined wordSim charSim i) := by
  intro s w c n
  refine ⟨?_, ?_, ?_⟩
  · unfold VectorStore.query
    by_cases hs : s = []
    · rw [if_pos hs]; exact Nat.zero_le n
    · rw [if_neg hs]
      calc (List.filterMap _ (queryTopIndices s w c n)).length
          ≤ (queryTopIndices s w c n).length := List.length_filterMap_le _ _
        _ ≤ ((sortDesc (simCombined w c) (List.range s.length)).take n).length :=
            List.length_filter_le _ _
        _ ≤ n := List.length_take_le _ _
  · intro r hr
    unfold VectorStore.query at hr
    by_cases hs : s = []
    · rw [if_pos hs] at hr; cases hr
    · rw [if_neg hs] at hr
      obtain ⟨i, hi, heq⟩ := List.mem_filterMap.mp hr
      have hipos : 0 < simCombined w c i :=
        of_decide_eq_true (List.mem_filter.mp hi).2
      have hitk : i ∈ (sortDesc (simCombined w c) (List.range s.length)).take n :=
        (List.mem_filter.mp hi).1
      have hilt : i < s.length := by
        have := (List.take_sublist _ _).mem hitk
        rw [mem_sortDesc, List.mem_range] at this
        exact this
      refine ⟨i, hilt, ?_⟩
      rw [List.get?_eq_get hilt, Option.map_some'] at heq
      cases heq
      exact ⟨rfl, rfl, rfl, hipos⟩
  · intro i hi j hjlt hjnot
    have hipos : 0 < simCombined w c i :=
      of_decide_eq_true (List.mem_filter.mp hi).2
    have hitk : i ∈ (sortDesc (simCombined w c) (List.range s.length)).take n :=
      (List.mem_filter.mp hi).1
    by_cases hjtk : j ∈ (sortDesc (simCombined w c) (List.range s.length)).take n
    · have hjneg : ¬ 0 < simCombined w c j := by
        intro hpos
        exact hjnot (List.mem_filter.mpr ⟨hjtk, decide_eq_true hpos⟩)
      exact le_trans (le_of_not_lt hjneg) (le_of_lt hipos)
    · have hjmem : j ∈ sortDesc (simCombined w c) (List.range s.length) := by
        rw [mem_sortDesc, List.mem_range]
        exact hjlt
      have hjdrop : j ∈ (sortDesc (simCombined w c) (List.range s.length)).drop n := by
        rcases (List.mem_append.mp (by
          rwa [List.take_append_drop n
            (sortDesc (simCombined w c) (List.range s.length))])) with h | h
        · exact absurd h hjtk
        · exact h
      have hpw := sortDesc_pairwise (simCombined w c) (List.range s.length)
      rw [← List.take_append_drop n
        (sortDesc (simCombined w c) (List.range s.length))] at hpw
      exact (List.pairwise_append.mp hpw).2.2 i hitk j hjdrop

/-- Witness for C4 amended: a concrete two-document query returns one item,
derived from document 0 with a positive combined similarity; the excluded
document 1 scores no higher. -/
theorem C4_amended_query_witness :
    ((VectorStore.query [("a", ⟨"ta".toList, []⟩), ("b", ⟨"tb".toList, []⟩)]
        (some [1/2, 1/4]) (some [1/2, 1/4]) 1).length ≤ 1) ∧
    simCombined (some [1/2, 1/4]) (some [1/2, 1/4]) 1 ≤
      simCombined (some [1/2, 1/4]) (some [1/2, 1/4]) 0 :=
  ⟨(C4_amended_query [("a", ⟨"ta".toList, []⟩), ("b", ⟨"tb".toList, []⟩)]
      (some [1/2, 1/4]) (some [1/2, 1/4]) 1).1,
   (C4_amended_query [("a", ⟨"ta".toList, []⟩), ("b", ⟨"tb".toList, []⟩)]
      (some [1/2, 1/4]) (some [1/2, 1/4]) 1).2.2 0 (by decide) 1 (by decide)
      (by decide)⟩

set_option maxRecDepth 4000 in
/-- C7 counterexample: with identical raw similarity 0.5 everywhere — the
policy chunk is additionally found by the keyword channel at rank 0, also with
score 0.5 — rank fusion gives the store-policy chunk the larger fused score
(`0.7/61 + 0.3/60` vs `0.7/60`), and even after the reliability weights
(0.8 vs 1.0) it is ranked strictly above the statute chunk: the returned
source types are `["store_policy", "law"]`. -/
theorem C7_counterexample :
    ((hybrid_search_legal_context [c7Law, c7Policy] [c7Policy] 5 (3/10)).map
        (fun r => sourceTypeOf r.metadata) = ["store_policy", "law"]) ∧
    ((hybrid_search_legal_context [c7Law, c7Policy] [c7Policy] 5 (3/10)).map
        (fun r => r.score) = [1/2, 1/2]) := by
  decide

theorem applyWeights_weighted_eq (l : List HItem) :
    ∀ x ∈ applyWeights l,
      x.weighted = round4 (x.hybrid * sourceWeight (sourceTypeOf x.metadata)) := by
  intro x hx
  obtain ⟨r, _, rfl⟩ := List.mem_map.mp hx
  rfl

/-- The arithmetic heart of the amended claim: if the statute item's fused
score is at least the policy item's and exceeds 0.0005, its weighted score
(weight 1) strictly exceeds the policy item's (weight 0.8), despite the
4-decimal rounding. -/
theorem round4_weighted_law_gt (a b : ℚ) (hba : b ≤ a) (ha : 1/2000 < a) :
    round4 (b * (4/5)) < round4 (a * 1) := by
  have hm := abs_le.mp (abs_sub_round (b * (4/5) * 10000))
  have hn := abs_le.mp (abs_sub_round (a * 1 * 10000))
  have key : ((round (b * (4/5) * 10000) : ℤ) : ℚ) < ((round (a * 1 * 10000) : ℤ) : ℚ) := by
    have hscale : b * (4/5) * 10000 ≤ a * (4/5) * 10000 := by linarith
    linarith [hm.1, hm.2, hn.1, hn.2]
  unfold round4
  linarith [key]

/-- C7 amended: the ranker multiplies each merged item's fused score by the
source-type reliability weight (statute/law 1.0, case-law/precedent 0.9,
store-policy 0.8); consequently, whenever a statute-tagged item's fused
(pre-weight) score is at least a store-policy-tagged item's and exceeds
0.0005, the statute item appears strictly earlier in the weighted ranking.
With identical raw similarity but a smaller rank-fusion score, the policy
chunk can still be ranked higher (see the counterexample): fusion is
rank-based, not similarity-based. -/
theorem C7_amended_source_weighting :
    (sourceWeight "law" = 1 ∧ sourceWeight "precedent" = 9/10 ∧
       sourceWeight "store_policy" = 4/5) ∧
    (∀ (l : List HItem) (i j : Nat)
        (hi : i < (weightedSort l).length) (hj : j < (weightedSort l).length),
       sourceTypeOf (((weightedSort l).get ⟨i, hi⟩).metadata) = "law" →
       sourceTypeOf (((weightedSort l).get ⟨j, hj⟩).metadata) = "store_policy" →
       ((weightedSort l).get ⟨j, hj⟩).hybrid ≤ ((weightedSort l).get ⟨i, hi⟩).hybrid →
       1/2000 < ((weightedSort l).get ⟨i, hi⟩).hybrid →
       i < j) := by
  refine ⟨⟨rfl, rfl, rfl⟩, ?_⟩
  intro l i j hi hj hlaw hpol hhyb hpos
  set x := (weightedSort l).get ⟨i, hi⟩ with hxdef
  set y := (weightedSort l).get ⟨j, hj⟩ with hydef
  have hxw : x.weighted = round4 (x.hybrid * 1) := by
    have hxmem : x ∈ applyWeights l := by
      rw [hxdef, ← mem_sortDesc (fun r => r.weighted)]
      exact List.get_mem _ _ _
    have := applyWeights_weighted_eq l x hxmem
    rwa [hlaw] at this
  have hyw : y.weighted = round4 (y.hybrid * (4/5)) := by
    have hymem : y ∈ applyWeights l := by
      rw [hydef, ← mem_sortDesc (fun r => r.weighted)]
      exact List.get_mem _ _ _
    have := applyWeights_weighted_eq l y hymem
    rwa [hpol] at this
  have hlt : y.weighted < x.weighted := by
    rw [hxw, hyw]
    exact round4_weighted_law_gt x.hybrid y.hybrid hhyb hpos
  by_contra hnot
  rcases Nat.lt_or_ge j i with hji | hij
  · have hpw := sortDesc_pairwise (fun r => r.weighted) (applyWeights l)
    have := (List.pairwise_iff_get.mp hpw) ⟨j, hj⟩ ⟨i, hi⟩ hji
    exact absurd hlt (not_lt.mpr this)
  · have hij₂ : i = j := Nat.le_antisymm hij (Nat.le_of_not_lt hnot)
    subst hij₂
    have : x = y := by rw [hxdef, hydef]
    rw [this] at hlt
    exact lt_irrefl _ hlt

set_option maxRecDepth 4000 in
/-- Witness for C7 amended: on the concrete weighted ranking of the two items
above, the statute item (index 0) is ranked strictly before the policy item
(index 1), via the theorem. -/
theorem C7_amended_source_weighting_witness : (0 : Nat) < 1 :=
  C7_amended_source_weighting.2 [c7wPolicy, c7wLaw] 0 1 (by decide) (by decide)
    (by decide) (by decide) (by decide) (by decide)

theorem chunkIndexed_append_chunk (metadata : List (String × MVal))
    (chunks : List Chunk) (text : List Char) (source_id : String)
    (h : chunkIndexed metadata chunks) :
    chunkIndexed metadata (_append_chunk chunks text metadata source_id) := by
  intro i hi
  unfold _append_chunk at hi ⊢
  rw [List.length_append, List.length_singleton] at hi
  by_cases hlt : i < chunks.length
  · rw [List.get_eq_getElem, List.getElem_append_left hlt]
    have := h i hlt
    rwa [List.get_eq_getElem] at this
  · have hieq : i = chunks.length := by omega
    subst hieq
    rw [List.get_eq_getElem, List.getElem_append_right (le_refl _)]
    simp

theorem chunkBounded_append_chunk (cs : Nat) (metadata : List (String × MVal))
    (chunks : List Chunk) (text : List Char) (source_id : String)
    (htext : text ≠ [] ∧ text.length ≤ cs) (h : chunkBounded cs chunks) :
    chunkBounded cs (_append_chunk chunks text metadata source_id) := by
  intro ch hch
  unfold _append_chunk at hch
  rcases List.mem_append.mp hch with hmem | hmem
  · exact h ch hmem
  · rw [List.mem_singleton] at hmem
    subst hmem
    exact htext

theorem chunkIndexed_windowChunks (cs ov : Nat) (metadata : List (String × MVal))
    (source_id : String) (segment : List Char) (chunks : List Chunk)
    (h : chunkIndexed metadata chunks) :
    chunkIndexed metadata (windowChunks cs ov metadata source_id segment chunks) := by
  unfold windowChunks
  apply foldl_inv (chunkIndexed metadata) _ _ _ chunks h
  intro b i hb
  dsimp only
  by_cases hsub : pyStrip ((segment.drop i).take cs) = []
  · rw [if_pos hsub]; exact hb
  · rw [if_neg hsub]; exact chunkIndexed_append_chunk _ _ _ _ hb

theorem chunkBounded_windowChunks (cs ov : Nat) (metadata : List (String × MVal))
    (source_id : String) (segment : List Char) (chunks : List Chunk)
    (h : chunkBounded cs chunks) :
    chunkBounded cs (windowChunks cs ov metadata source_id segment chunks) := by
  unfold windowChunks
  apply foldl_inv (chunkBounded cs) _ _ _ chunks h
  intro b i hb
  dsimp only
  by_cases hsub : pyStrip ((segment.drop i).take cs) = []
  · rw [if_pos hsub]; exact hb
  · rw [if_neg hsub]
    apply chunkBounded_append_chunk _ _ _ _ _ _ hb
    refine ⟨hsub, ?_⟩
    calc (pyStrip ((segment.drop i).take cs)).length
        ≤ ((segment.drop i).take cs).length := pyStrip_length_le _
      _ ≤ cs := List.length_take_le _ _

theorem chunkIndexed_chunkCore (segments : List (List Char))
    (metadata : List (String × MVal)) (cs ov : Nat) (source_id : String) :
    chunkIndexed metadata (chunkCore segments metadata cs ov source_id) := by
  unfold chunkCore
  have hfold : chunkIndexed metadata
      (segments.foldl (processSegment cs ov metadata source_id) ⟨[], []⟩).chunks := by
    apply foldl_inv (fun st : ChunkState => chunkIndexed metadata st.chunks)
    · intro st seg hst
      unfold processSegment
      by_cases hfit : st.current.length + seg.length + 1 ≤ cs
      · rw [if_pos hfit]; exact hst
      · rw [if_neg hfit]
        have hflush : chunkIndexed metadata
            (if st.current = [] then st.chunks
             else _append_chunk st.chunks st.current metadata source_id) := by
          by_cases hcur : st.current = []
          · rw [if_pos hcur]; exact hst
          · rw [if_neg hcur]; exact chunkIndexed_append_chunk _ _ _ _ hst
        by_cases hover : cs < seg.length
        · rw [if_pos hover]
          exact chunkIndexed_windowChunks _ _ _ _ _ _ hflush
        · rw [if_neg hover]; exact hflush
    · intro i h; simp at h
  by_cases hres : pyStrip
      (segments.foldl (processSegment cs ov metadata source_id) ⟨[], []⟩).current = []
  · rw [if_pos hres]; exact hfold
  · rw [if_neg hres]; exact chunkIndexed_append_chunk _ _ _ _ hfold

theorem chunkBounded_chunkCore (segments : List (List Char))
    (metadata : List (String × MVal)) (cs ov : Nat) (source_id : String) :
    chunkBounded cs (chunkCore segments metadata cs ov source_id) := by
  unfold chunkCore
  have hfold : chunkBounded cs
      (segments.foldl (processSegment cs ov metadata source_id) ⟨[], []⟩).chunks ∧
      (segments.foldl (processSegment cs ov metadata source_id) ⟨[], []⟩).current.length
        ≤ cs := by
    have := foldl_inv
      (fun st : ChunkState => chunkBounded cs st.chunks ∧ st.current.length ≤ cs)
      (processSegment cs ov metadata source_id) ?_ segments ⟨[], []⟩ ?_
    · exact this
    · intro st seg hst
      unfold processSegment
      by_cases hfit : st.current.length + seg.length + 1 ≤ cs
      · rw [if_pos hfit]
        refine ⟨hst.1, ?_⟩
        by_cases hcur : st.current = []
        · rw [if_pos hcur]
          show seg.length ≤ cs
          have hz : st.current.length = 0 := by rw [hcur]; rfl
          omega
        · rw [if_neg hcur]
          show (st.current ++ [' '] ++ seg).length ≤ cs
          simp only [List.length_append, List.length_singleton]
          omega
      · rw [if_neg hfit]
        have hflush : chunkBounded cs
            (if st.current = [] then st.chunks
             else _append_chunk st.chunks st.current metadata source_id) := by
          by_cases hcur : st.current = []
          · rw [if_pos hcur]; exact hst.1
          · rw [if_neg hcur]
            exact chunkBounded_append_chunk _ _ _ _ _ ⟨hcur, hst.2⟩ hst.1
        by_cases hover : cs < seg.length
        · rw [if_pos hover]
          refine ⟨chunkBounded_windowChunks _ _ _ _ _ _ hflush, ?_⟩
          show ([] : List Char).length ≤ cs
          simp
        · rw [if_neg hover]
          refine ⟨hflush, ?_⟩
          show seg.length ≤ cs
          omega
    · exact ⟨by intro ch hch; simp at hch, by simp⟩
  by_cases hres : pyStrip
      (segments.foldl (processSegment cs ov metadata source_id) ⟨[], []⟩).current = []
  · rw [if_pos hres]; exact hfold.1
  · rw [if_neg hres]
    apply chunkBounded_append_chunk _ _ _ _ _ _ hfold.1
    exact ⟨hres, le_trans (pyStrip_length_le _) hfold.2⟩

/-- C9: for both chunkers, the `i`-th produced chunk (0-based) carries
`metadata.chunk_index = i` — indices are 0-based and contiguous — and every
other key-value pair of the parent metadata appears unchanged in the chunk's
metadata. -/
theorem C9_chunk_index_and_metadata :
    (∀ (text : List Char) (metadata : List (String × MVal)) (cs ov : Nat),
       ov < cs → ∀ (i : Nat) (h : i < (chunk_law_text text metadata cs ov).length),
       lookupKV "chunk_index" (((chunk_law_text text metadata cs ov).get ⟨i, h⟩).metadata)
           = some (MVal.nat i) ∧
       ∀ (k : String) (v : MVal), k ≠ "chunk_index" → lookupKV k metadata = some v →
         lookupKV k (((chunk_law_text text metadata cs ov).get ⟨i, h⟩).metadata)
           = some v) ∧
    (∀ (text : List Char) (metadata : List (String × MVal)) (cs ov : Nat),
       ov < cs → ∀ (i : Nat) (h : i < (chunk_precedent_text text metadata cs ov).length),
       lookupKV "chunk_index"
           (((chunk_precedent_text text metadata cs ov).get ⟨i, h⟩).metadata)
           = some (MVal.nat i) ∧
       ∀ (k : String) (v : MVal), k ≠ "chunk_index" → lookupKV k metadata = some v →
         lookupKV k (((chunk_precedent_text text metadata cs ov).get ⟨i, h⟩).metadata)
           = some v) := by
  have hmain : ∀ (chunks : List Chunk) (metadata : List (String × MVal)),
      chunkIndexed metadata chunks →
      ∀ (i : Nat) (h : i < chunks.length),
        lookupKV "chunk_index" ((chunks.get ⟨i, h⟩).metadata) = some (MVal.nat i) ∧
        ∀ (k : String) (v : MVal), k ≠ "chunk_index" → lookupKV k metadata = some v →
          lookupKV k ((chunks.get ⟨i, h⟩).metadata) = some v := by
    intro chunks metadata hidx i h
    rw [hidx i h]
    constructor
    · exact lookupKV_dictSet_self _ _ _
    · intro k v hk hv
      rw [lookupKV_dictSet_ne _ _ _ _ hk]
      exact hv
  constructor
  · intro text metadata cs ov _ i h
    revert h
    unfold chunk_law_text
    by_cases hcl : _clean_html text = []
    · rw [if_pos hcl]; intro h; simp at h
    · rw [if_neg hcl]
      intro h
      exact hmain _ metadata (chunkIndexed_chunkCore _ _ _ _ _) i h
  · intro text metadata cs ov _ i h
    revert h
    unfold chunk_precedent_text
    by_cases hcl : _clean_html text = []
    · rw [if_pos hcl]; intro h; simp at h
    · rw [if_neg hcl]
      intro h
      exact hmain _ metadata (chunkIndexed_chunkCore _ _ _ _ _) i h

set_option maxRecDepth 4000 in
/-- Witness for C9: the single chunk produced from a short plain text has
`chunk_index = 0` and inherits `law_name` unchanged, via the theorem. -/
theorem C9_chunk_index_and_metadata_witness :
    lookupKV "chunk_index"
        (((chunk_law_text c9Text c9Meta 800 150).get ⟨0, by decide⟩).metadata)
      = some (MVal.nat 0) ∧
    lookupKV "law_name"
        (((chunk_precedent_text c9Text c9Meta 1200 300).get ⟨0, by decide⟩).metadata)
      = some (MVal.str "N") :=
  ⟨(C9_chunk_index_and_metadata.1 c9Text c9Meta 800 150 (by decide) 0 (by decide)).1,
   (C9_chunk_index_and_metadata.2 c9Text c9Meta 1200 300 (by decide) 0 (by decide)).2
     "law_name" (MVal.str "N") (by decide) (by decide)⟩

/-- C10: for every input and every `overlap < chunk_size`, both chunkers
produce only chunks with non-empty text of length at most `chunk_size`, and
an input whose cleaned form is empty produces no chunks at all. -/
theorem C10_chunk_bounds :
    ∀ (text : List Char) (metadata : List (String × MVal)) (cs ov : Nat),
      ov < cs →
      (∀ ch ∈ chunk_law_text text metadata cs ov,
         ch.text ≠ [] ∧ ch.text.length ≤ cs) ∧
      (_clean_html text = [] → chunk_law_text text metadata cs ov = []) ∧
      (∀ ch ∈ chunk_precedent_text text metadata cs ov,
         ch.text ≠ [] ∧ ch.text.length ≤ cs) ∧
      (_clean_html text = [] → chunk_precedent_text text metadata cs ov = []) := by
  intro text metadata cs ov _
  refine ⟨?_, ?_, ?_, ?_⟩
  · intro ch hch
    unfold chunk_law_text at hch
    by_cases hcl : _clean_html text = []
    · rw [if_pos hcl] at hch; cases hch
    · rw [if_neg hcl] at hch
      exact chunkBounded_chunkCore _ _ _ _ _ ch hch
  · intro hcl
    unfold chunk_law_text
    rw [if_pos hcl]
  · intro ch hch
    unfold chunk_precedent_text at hch
    by_cases hcl : _clean_html text = []
    · rw [if_pos hcl] at hch; cases hch
    · rw [if_neg hcl] at hch
      exact chunkBounded_chunkCore _ _ _ _ _ ch hch
  · intro hcl
    unfold chunk_precedent_text
    rw [if_pos hcl]

set_option maxRecDepth 4000 in
/-- Witness for C10: the chunk produced from the concrete text is non-empty
and within the 800-character bound, and a pure-markup input chunks to `[]` —
via the theorem. -/
theorem C10_chunk_bounds_witness :
    ((chunk_law_text c9Text c9Meta 800 150).get ⟨0, by decide⟩).text ≠ [] ∧
    chunk_law_text "<style>h1 \x7b color: red \x7d</style>".toList c9Meta 800 150
      = [] :=
  ⟨((C10_chunk_bounds c9Text c9Meta 800 150 (by decide)).1
      ((chunk_law_text c9Text c9Meta 800 150).get ⟨0, by decide⟩)
      (List.get_mem _ _ _)).1,
   (C10_chunk_bounds "<style>h1 \x7b color: red \x7d</style>".toList c9Meta 800 150
      (by decide)).2.1 (by decide)⟩

end SafeLaunch
